import Mathlib

/-!
Shallow embedding of the `tasktracker` service (src/tasktracker/models.py,
services.py, utils.py): the Task entity with its serialization contract,
and the in-memory TaskService with CRUD, filtering and history logging.

Modelling choices:
* A timezone-aware Python `datetime` is a pair of a wall-clock value
  (an integer instant as written in the datetime's own zone) and an
  optional UTC offset (`none` models a naive datetime).  Python `==`
  on two aware datetimes compares absolute instants (wall - offset).
* An ISO-8601 string is modelled by what it encodes: a wall value and an
  optional offset (`none` models a string without a timezone suffix).
* The time source `utcnow` is an explicit clock `Nat → Int` paired with a
  position counter in the service state; each consultation reads
  `clock pos` and advances `pos` by one, so "consulted exactly once" is
  `clockPos' = clockPos + 1`.
* The store (a Python dict keyed by task id) is an association list with
  insertion-order semantics: assignment to an existing key replaces in
  place, assignment to a fresh key appends, deletion removes the key.
* `ValueError` is `SvcErr.invalidValue`, `KeyError` is `SvcErr.notFound`.
* `update_task` mutates the stored task object field by field, exactly in
  the source's order (title, description, status, priority), validating
  each field immediately before writing it; on an exception the fields
  already written stay written, which the embedding reflects by returning
  the partially-updated state alongside the error.
-/

namespace TaskTracker

/-- Error taxonomy: Python `ValueError` and `KeyError`. -/
inductive SvcErr where
  | invalidValue : SvcErr
  | notFound : SvcErr
deriving DecidableEq

instance {ε α : Type} [DecidableEq ε] [DecidableEq α] : DecidableEq (Except ε α) :=
  fun a b =>
    match a, b with
    | .error e1, .error e2 =>
      if h : e1 = e2 then isTrue (by rw [h])
      else isFalse (fun hh => h (Except.error.injEq e1 e2 ▸ hh))
    | .ok v1, .ok v2 =>
      if h : v1 = v2 then isTrue (by rw [h])
      else isFalse (fun hh => h (Except.ok.injEq v1 v2 ▸ hh))
    | .error _, .ok _ => isFalse (fun hh => Except.noConfusion hh)
    | .ok _, .error _ => isFalse (fun hh => Except.noConfusion hh)

/-- `not title or not title.strip()`: the title is empty or whitespace-only,
i.e. every character is whitespace. -/
def stripEmpty (s : String) : Bool := s.data.all Char.isWhitespace

/-- A Python datetime: wall-clock instant plus optional UTC offset
(`none` = naive). -/
structure PyDateTime where
  wall : Int
  off : Option Int
deriving DecidableEq

/-- What an ISO-8601 timestamp string encodes: a wall value and an optional
UTC offset (`none` = no timezone suffix in the string). -/
structure IsoStamp where
  wall : Int
  off : Option Int
deriving DecidableEq

/-- An aware datetime in UTC with the given instant (what `utcnow` returns). -/
def utcDT (x : Int) : PyDateTime := ⟨x, some 0⟩

/-- The ISO string of an aware UTC datetime with the given instant. -/
def isoUTC (x : Int) : IsoStamp := ⟨x, some 0⟩

/-- The absolute instant of a datetime (naive datetimes read as offset 0;
comparisons in the service only ever involve aware datetimes). -/
def dtKey (d : PyDateTime) : Int := d.wall - d.off.getD 0

/-- `utils.to_iso`: raises on a naive datetime, otherwise converts to UTC and
renders with the `+00:00` suffix. -/
def to_iso (d : PyDateTime) : Except SvcErr IsoStamp :=
  match d.off with
  | none => .error .invalidValue
  | some o => .ok ⟨d.wall - o, some 0⟩

/-- `utils.from_iso`: raises when the string has no timezone suffix, otherwise
parses and normalizes to UTC. -/
def from_iso (i : IsoStamp) : Except SvcErr PyDateTime :=
  match i.off with
  | none => .error .invalidValue
  | some o => .ok ⟨i.wall - o, some 0⟩

/-- Python `==` on datetimes: aware/aware compares absolute instants,
naive/naive compares wall values, aware/naive is `false`. -/
def pyDtEq (a b : PyDateTime) : Bool :=
  match a.off, b.off with
  | some o1, some o2 => decide (a.wall - o1 = b.wall - o2)
  | none, none => decide (a.wall = b.wall)
  | _, _ => false

/-- `models.TaskStatus`. -/
inductive TaskStatus where
  | OPEN : TaskStatus
  | IN_PROGRESS : TaskStatus
  | DONE : TaskStatus
deriving DecidableEq

/-- The raw string token of a status. -/
def TaskStatus.token : TaskStatus → String
  | .OPEN => "OPEN"
  | .IN_PROGRESS => "IN_PROGRESS"
  | .DONE => "DONE"

/-- `TaskStatus(s)` on a string: `some` on the three recognized tokens,
`none` models the `ValueError`. -/
def TaskStatus.fromString (s : String) : Option TaskStatus :=
  if s = "OPEN" then some .OPEN
  else if s = "IN_PROGRESS" then some .IN_PROGRESS
  else if s = "DONE" then some .DONE
  else none

/-- `models.TaskPriority` (IntEnum 1..5). -/
inductive TaskPriority where
  | P1 : TaskPriority
  | P2 : TaskPriority
  | P3 : TaskPriority
  | P4 : TaskPriority
  | P5 : TaskPriority
deriving DecidableEq

/-- The raw integer value of a priority level. -/
def TaskPriority.val : TaskPriority → Int
  | .P1 => 1
  | .P2 => 2
  | .P3 => 3
  | .P4 => 4
  | .P5 => 5

/-- `TaskPriority(x)` on an integer: `some` for 1..5, `none` models the
`ValueError`. -/
def TaskPriority.fromInt (x : Int) : Option TaskPriority :=
  if x = 1 then some .P1
  else if x = 2 then some .P2
  else if x = 3 then some .P3
  else if x = 4 then some .P4
  else if x = 5 then some .P5
  else none

/-- `models.Task` after `__post_init__` normalization (status and priority in
canonical enum form). -/
structure Task where
  id : String
  title : String
  description : String
  status : TaskStatus
  priority : TaskPriority
  created_at : PyDateTime
  updated_at : PyDateTime
deriving DecidableEq

/-- Python dataclass `==` on tasks: field-wise `==`, with datetime fields
compared by `pyDtEq`. -/
def pyTaskEq (a b : Task) : Bool :=
  decide (a.id = b.id) && decide (a.title = b.title) &&
  decide (a.description = b.description) && decide (a.status = b.status) &&
  decide (a.priority = b.priority) &&
  pyDtEq a.created_at b.created_at && pyDtEq a.updated_at b.updated_at

/-- The dictionary shape produced by `Task.to_dict`: raw status token, raw
integer priority, ISO timestamp strings. -/
structure TaskDict where
  id : String
  title : String
  description : String
  status : String
  priority : Int
  created_at : IsoStamp
  updated_at : IsoStamp
deriving DecidableEq

/-- `Task.to_dict`: serialize; `to_iso` raises on a naive timestamp
(created_at is rendered first, as in the source dict literal). -/
def Task.to_dict (t : Task) : Except SvcErr TaskDict :=
  match to_iso t.created_at with
  | .error e => .error e
  | .ok c =>
    match to_iso t.updated_at with
    | .error e => .error e
    | .ok u => .ok ⟨t.id, t.title, t.description, t.status.token, t.priority.val, c, u⟩

/-- `Task.from_dict`: parse the timestamps (raising on a missing timezone
suffix), then convert the raw status and priority back to enums (raising on
unrecognized values), in the source's order. -/
def Task.from_dict (d : TaskDict) : Except SvcErr Task :=
  match from_iso d.created_at with
  | .error e => .error e
  | .ok c =>
    match from_iso d.updated_at with
    | .error e => .error e
    | .ok u =>
      match TaskStatus.fromString d.status with
      | none => .error .invalidValue
      | some st =>
        match TaskPriority.fromInt d.priority with
        | none => .error .invalidValue
        | some p => .ok ⟨d.id, d.title, d.description, st, p, c, u⟩

/-- History event actions. -/
inductive HistAction where
  | CREATE : HistAction
  | UPDATE : HistAction
  | DELETE : HistAction
deriving DecidableEq

/-- A history event dictionary produced by `TaskService._log`. -/
structure HistEvent where
  action : HistAction
  task_id : String
  atTime : IsoStamp
deriving DecidableEq

/-- The `TaskService` state: the insertion-ordered store, the append-only
history log, and the position of the injected time source. -/
structure SvcState where
  store : List (String × Task)
  history : List HistEvent
  clockPos : Nat
deriving DecidableEq

/-- Dict lookup `self._store[task_id]` / `task_id in self._store`. -/
def lookupStore : List (String × Task) → String → Option Task
  | [], _ => none
  | (k, v) :: rest, id => if k = id then some v else lookupStore rest id

/-- Dict assignment `self._store[task_id] = task`: replace in place when the
key exists, append otherwise. -/
def insertStore : List (String × Task) → String → Task → List (String × Task)
  | [], id, t => [(id, t)]
  | (k, v) :: rest, id, t =>
    if k = id then (k, t) :: rest else (k, v) :: insertStore rest id t

/-- Dict deletion `del self._store[task_id]`. -/
def eraseStore : List (String × Task) → String → List (String × Task)
  | [], _ => []
  | (k, v) :: rest, id =>
    if k = id then eraseStore rest id else (k, v) :: eraseStore rest id

/-- Commit a (possibly mutated) task object back under its id; in Python the
stored object is aliased, so every in-place field write is this. -/
def writeBack (s : SvcState) (id : String) (t : Task) : SvcState :=
  { s with store := insertStore s.store id t }

/-- `TaskService._log` with an explicit timestamp: append one event. -/
def logEvent (s : SvcState) (a : HistAction) (id : String) (now : Int) : SvcState :=
  { s with history := s.history ++ [⟨a, id, isoUTC now⟩] }

/-- The sort key comparison `lambda t: t.created_at` under Python `<=` on
aware datetimes (absolute instants). -/
def createdLe (a b : Task) : Prop := dtKey a.created_at ≤ dtKey b.created_at

instance : DecidableRel createdLe := fun a b => by
  unfold createdLe; infer_instance

instance : IsTotal Task createdLe :=
  ⟨fun a b => Int.le_total (dtKey a.created_at) (dtKey b.created_at)⟩

instance : IsTrans Task createdLe :=
  ⟨fun _ _ _ h1 h2 => le_trans h1 h2⟩

/-- `tasks.sort(key=lambda t: t.created_at)`: a stable sort by ascending
creation time. -/
def sortByCreated (l : List Task) : List Task := List.insertionSort createdLe l

/-- `TaskService.create_task`: validate title, validate priority, capture the
time once, build the task with status OPEN, insert, log CREATE with the same
captured time.  The fresh uuid is an explicit argument. -/
def create_task (clock : Nat → Int) (id : String) (title description : String)
    (priority : Int) (s : SvcState) : Except SvcErr (Task × SvcState) :=
  if stripEmpty title then .error .invalidValue
  else
    match TaskPriority.fromInt priority with
    | none => .error .invalidValue
    | some p =>
      let now := clock s.clockPos
      let task : Task := ⟨id, title, description, .OPEN, p, utcDT now, utcDT now⟩
      .ok (task,
        { store := insertStore s.store id task
          history := s.history ++ [⟨.CREATE, id, isoUTC now⟩]
          clockPos := s.clockPos + 1 })

/-- `TaskService.get_task`. -/
def get_task (id : String) (s : SvcState) : Except SvcErr Task :=
  match lookupStore s.store id with
  | none => .error .notFound
  | some t => .ok t

/-- The title block of `update_task`: validate, then write when different. -/
def stepTitle (arg : Option String) (task : Task) (h : Bool) :
    Except SvcErr (Task × Bool) :=
  match arg with
  | none => .ok (task, h)
  | some ttl =>
    if stripEmpty ttl then .error .invalidValue
    else if task.title ≠ ttl then .ok ({ task with title := ttl }, true)
    else .ok (task, h)

/-- The description block of `update_task`: no validation, write when
different. -/
def stepDesc (arg : Option String) (task : Task) (h : Bool) :
    Except SvcErr (Task × Bool) :=
  match arg with
  | none => .ok (task, h)
  | some d =>
    if task.description ≠ d then .ok ({ task with description := d }, true)
    else .ok (task, h)

/-- The status block of `update_task`: validate the token, normalize to the
enum, write when different. -/
def stepStatus (arg : Option String) (task : Task) (h : Bool) :
    Except SvcErr (Task × Bool) :=
  match arg with
  | none => .ok (task, h)
  | some st =>
    match TaskStatus.fromString st with
    | none => .error .invalidValue
    | some ns =>
      if task.status ≠ ns then .ok ({ task with status := ns }, true)
      else .ok (task, h)

/-- The priority block of `update_task`: validate the integer, normalize to
the enum, write when different. -/
def stepPriority (arg : Option Int) (task : Task) (h : Bool) :
    Except SvcErr (Task × Bool) :=
  match arg with
  | none => .ok (task, h)
  | some p =>
    match TaskPriority.fromInt p with
    | none => .error .invalidValue
    | some np =>
      if task.priority ≠ np then .ok ({ task with priority := np }, true)
      else .ok (task, h)

/-- `TaskService.update_task`: fetch the task, process the four optional
fields in order (each write lands on the aliased stored object, so a later
validation error leaves earlier writes committed), and when anything changed
capture the time once, set `updated_at`, and log one UPDATE event with that
same time.  Returns the Python result (value or raised error) together with
the state as it stands after the call. -/
def update_task (clock : Nat → Int) (id : String) (title arg_description : Option String)
    (status : Option String) (priority : Option Int) (s : SvcState) :
    Except SvcErr Task × SvcState :=
  match lookupStore s.store id with
  | none => (.error .notFound, s)
  | some task0 =>
    match stepTitle title task0 false with
    | .error e => (.error e, writeBack s id task0)
    | .ok (t1, h1) =>
      match stepDesc arg_description t1 h1 with
      | .error e => (.error e, writeBack s id t1)
      | .ok (t2, h2) =>
        match stepStatus status t2 h2 with
        | .error e => (.error e, writeBack s id t2)
        | .ok (t3, h3) =>
          match stepPriority priority t3 h3 with
          | .error e => (.error e, writeBack s id t3)
          | .ok (t4, h4) =>
            if h4 then
              let now := clock s.clockPos
              let t5 := { t4 with updated_at := utcDT now }
              (.ok t5,
                { store := insertStore s.store id t5
                  history := s.history ++ [⟨.UPDATE, id, isoUTC now⟩]
                  clockPos := s.clockPos + 1 })
            else (.ok t4, writeBack s id t4)

/-- `TaskService.delete_task`: check existence, log DELETE (consulting the
clock, since `_log` gets no timestamp), then remove the entry. -/
def delete_task (clock : Nat → Int) (id : String) (s : SvcState) :
    Except SvcErr Unit × SvcState :=
  match lookupStore s.store id with
  | none => (.error .notFound, s)
  | some _ =>
    let now := clock s.clockPos
    let logged := logEvent { s with clockPos := s.clockPos + 1 } .DELETE id now
    (.ok (), { logged with store := eraseStore logged.store id })

/-- `TaskService.list_tasks`: all stored tasks sorted by ascending
`created_at`. -/
def list_tasks (s : SvcState) : List Task :=
  sortByCreated (s.store.map Prod.snd)

/-- The status filter block of `filter_tasks`. -/
def statusFilterStep (arg : Option String) (tasks : List Task) :
    Except SvcErr (List Task) :=
  match arg with
  | none => .ok tasks
  | some st =>
    match TaskStatus.fromString st with
    | none => .error .invalidValue
    | some fs => .ok (tasks.filter (fun t => t.status = fs))

/-- The min-priority filter block of `filter_tasks`:
`t.priority.value >= filter_min_priority.value`. -/
def prioFilterStep (arg : Option Int) (tasks : List Task) :
    Except SvcErr (List Task) :=
  match arg with
  | none => .ok tasks
  | some mp =>
    match TaskPriority.fromInt mp with
    | none => .error .invalidValue
    | some fp => .ok (tasks.filter (fun t => fp.val ≤ t.priority.val))

/-- `TaskService.filter_tasks`: apply the status filter, then the
min-priority filter, then sort by ascending `created_at`.  Reads the state
only: the store and the history are never touched. -/
def filter_tasks (status : Option String) (min_priority : Option Int)
    (s : SvcState) : Except SvcErr (List Task) :=
  match statusFilterStep status (s.store.map Prod.snd) with
  | .error e => .error e
  | .ok tasks1 =>
    match prioFilterStep min_priority tasks1 with
    | .error e => .error e
    | .ok tasks2 => .ok (sortByCreated tasks2)

/-- Does a supplied title differ from the current one? -/
def titleDiff (arg : Option String) (cur : String) : Bool :=
  match arg with
  | none => false
  | some x => decide (cur ≠ x)

/-- Does a supplied description differ from the current one? -/
def descDiff (arg : Option String) (cur : String) : Bool :=
  match arg with
  | none => false
  | some x => decide (cur ≠ x)

/-- Does a supplied (recognized) status token normalize to a value different
from the current one? -/
def statusDiff (arg : Option String) (cur : TaskStatus) : Bool :=
  match arg with
  | none => false
  | some st =>
    match TaskStatus.fromString st with
    | none => false
    | some v => decide (cur ≠ v)

/-- Does a supplied (in-range) priority normalize to a level different from
the current one? -/
def prioDiff (arg : Option Int) (cur : TaskPriority) : Bool :=
  match arg with
  | none => false
  | some p =>
    match TaskPriority.fromInt p with
    | none => false
    | some v => decide (cur ≠ v)

/-- Spec-side predicate for C2: at least one supplied field's normalized new
value differs from the current value of the task. -/
def specChanged (tA dA sA : Option String) (pA : Option Int) (task : Task) : Bool :=
  titleDiff tA task.title || descDiff dA task.description ||
  statusDiff sA task.status || prioDiff pA task.priority

/-- Spec-side predicate for C5: the conjunction of the supplied filter
predicates — exact status match, and raw integer priority at least the
minimum (so min_priority 3 keeps priorities 3, 4, 5). -/
def matchesFilters (fs : Option TaskStatus) (fp : Option TaskPriority) (t : Task) : Bool :=
  (match fs with | none => true | some v => decide (t.status = v)) &&
  (match fp with | none => true | some v => decide (v.val ≤ t.priority.val))

/-! ## Reachable service states -/

/-- States reachable from a fresh `TaskService()` by any sequence of service
operations under a fixed injected time source.  A failed create returns no
new state; failed updates and deletes keep the state the call left behind. -/
inductive Reach (clock : Nat → Int) : SvcState → Prop where
  | init : Reach clock ⟨[], [], 0⟩
  | create (s : SvcState) (id title description : String) (priority : Int)
      (task : Task) (s' : SvcState) (hr : Reach clock s)
      (hc : create_task clock id title description priority s = .ok (task, s')) :
      Reach clock s'
  | update (s : SvcState) (id : String) (tA dA sA : Option String)
      (pA : Option Int) (hr : Reach clock s) :
      Reach clock (update_task clock id tA dA sA pA s).2
  | delete (s : SvcState) (id : String) (hr : Reach clock s) :
      Reach clock (delete_task clock id s).2

/-- Time bookkeeping invariant: every stored task was created at some earlier
clock consultation, and its `updated_at` is no earlier than its
`created_at`. -/
def storeTimeInv (clock : Nat → Int) (s : SvcState) : Prop :=
  ∀ id t, lookupStore s.store id = some t →
    (∃ p, p < s.clockPos ∧ t.created_at = utcDT (clock p)) ∧
    dtKey t.created_at ≤ dtKey t.updated_at

/-! ## Basic store lemmas -/

theorem lookup_insert (st : List (String × Task)) (id : String) (t : Task) :
    lookupStore (insertStore st id t) id = some t := by
  induction st with
  | nil => simp [insertStore, lookupStore]
  | cons p rest ih =>
    obtain ⟨k, v⟩ := p
    by_cases h : k = id
    · simp [insertStore, lookupStore, h]
    · simp [insertStore, lookupStore, h, ih]

theorem lookup_insert_cases (st : List (String × Task)) (k : String) (t : Task)
    (id : String) :
    lookupStore (insertStore st k t) id =
      if k = id then some t else lookupStore st id := by
  induction st with
  | nil => simp [insertStore, lookupStore]
  | cons p rest ih =>
    obtain ⟨k', v⟩ := p
    by_cases h : k' = k
    · subst h
      by_cases h2 : k' = id <;> simp [insertStore, lookupStore, h2]
    · by_cases h2 : k' = id
      · subst h2
        have hne : ¬k = k' := fun hh => h hh.symm
        simp [insertStore, lookupStore, h, hne]
      · simp [insertStore, lookupStore, h, h2, ih]

theorem lookup_erase (st : List (String × Task)) (id : String) :
    lookupStore (eraseStore st id) id = none := by
  induction st with
  | nil => simp [eraseStore, lookupStore]
  | cons p rest ih =>
    obtain ⟨k, v⟩ := p
    by_cases h : k = id
    · simp [eraseStore, h, ih]
    · simp [eraseStore, lookupStore, h, ih]

theorem lookup_erase_some (st : List (String × Task)) (id id' : String) (t : Task)
    (H : lookupStore (eraseStore st id) id' = some t) :
    lookupStore st id' = some t := by
  induction st with
  | nil => simp [eraseStore, lookupStore] at H
  | cons p rest ih =>
    obtain ⟨k, v⟩ := p
    by_cases h : k = id
    · subst h
      simp [eraseStore] at H
      by_cases h2 : k = id'
      · subst h2
        exact absurd (lookup_erase rest k ▸ H) (by simp)
      · simpa [lookupStore, h2] using ih H
    · simp [eraseStore, h, lookupStore] at H ⊢
      by_cases h2 : k = id'
      · simpa [h2] using H
      · simp [h2] at H ⊢
        exact ih H

/-! ## Enum conversion lemmas -/

theorem fromInt_isSome_iff (x : Int) :
    (TaskPriority.fromInt x).isSome = true ↔ 1 ≤ x ∧ x ≤ 5 := by
  unfold TaskPriority.fromInt
  split_ifs <;> simp <;> omega

theorem fromInt_val (p : TaskPriority) : TaskPriority.fromInt p.val = some p := by
  cases p <;> rfl

theorem fromString_token (st : TaskStatus) :
    TaskStatus.fromString st.token = some st := by
  cases st <;> rfl

/-! ## create_task -/

theorem create_task_ok_spec (clock : Nat → Int) (id title description : String)
    (priority : Int) (s : SvcState) (task : Task) (s' : SvcState)
    (H : create_task clock id title description priority s = .ok (task, s')) :
    task = ⟨id, title, description, .OPEN,
            (TaskPriority.fromInt priority).getD .P1,
            utcDT (clock s.clockPos), utcDT (clock s.clockPos)⟩ ∧
    s' = { store := insertStore s.store id task
           history := s.history ++ [⟨.CREATE, id, isoUTC (clock s.clockPos)⟩]
           clockPos := s.clockPos + 1 } := by
  unfold create_task at H
  split at H
  · exact absurd H (by simp)
  · split at H
    · exact absurd H (by simp)
    · rename_i p hp
      simp only [Except.ok.injEq, Prod.mk.injEq] at H
      obtain ⟨ht, hs⟩ := H
      subst ht
      constructor
      · simp [hp]
      · exact hs.symm

/-- C4: a successful CreateTask consults the time source exactly once
(the clock position advances by one) and that single captured value is used
for `created_at`, for `updated_at`, and for the timestamp of the one CREATE
history event appended; the new task's status is OPEN and
`created_at = updated_at`. -/
theorem c4_create_single_timestamp (clock : Nat → Int) (id title description : String)
    (priority : Int) (s : SvcState) (task : Task) (s' : SvcState)
    (H : create_task clock id title description priority s = .ok (task, s')) :
    task.status = .OPEN ∧
    task.created_at = utcDT (clock s.clockPos) ∧
    task.updated_at = task.created_at ∧
    s'.history = s.history ++ [⟨.CREATE, id, isoUTC (clock s.clockPos)⟩] ∧
    s'.clockPos = s.clockPos + 1 := by
  obtain ⟨ht, hs⟩ := create_task_ok_spec clock id title description priority s task s' H
  subst ht
  subst hs
  simp

theorem c4_witness :
    create_task (fun _ => 7) "a" "A" "d" 3 ⟨[], [], 0⟩ =
      .ok (⟨"a", "A", "d", .OPEN, .P3, utcDT 7, utcDT 7⟩,
           ⟨[("a", ⟨"a", "A", "d", .OPEN, .P3, utcDT 7, utcDT 7⟩)],
            [⟨.CREATE, "a", isoUTC 7⟩], 1⟩) ∧
    (⟨"a", "A", "d", .OPEN, .P3, utcDT 7, utcDT 7⟩ : Task).status = .OPEN ∧
    (⟨"a", "A", "d", .OPEN, .P3, utcDT 7, utcDT 7⟩ : Task).created_at = utcDT 7 ∧
    (⟨"a", "A", "d", .OPEN, .P3, utcDT 7, utcDT 7⟩ : Task).updated_at =
      (⟨"a", "A", "d", .OPEN, .P3, utcDT 7, utcDT 7⟩ : Task).created_at ∧
    (⟨[("a", ⟨"a", "A", "d", .OPEN, .P3, utcDT 7, utcDT 7⟩)],
      [⟨.CREATE, "a", isoUTC 7⟩], 1⟩ : SvcState).history =
      (⟨[], [], 0⟩ : SvcState).history ++ [⟨.CREATE, "a", isoUTC 7⟩] ∧
    (⟨[("a", ⟨"a", "A", "d", .OPEN, .P3, utcDT 7, utcDT 7⟩)],
      [⟨.CREATE, "a", isoUTC 7⟩], 1⟩ : SvcState).clockPos =
      (⟨[], [], 0⟩ : SvcState).clockPos + 1 := by
  refine ⟨by decide, ?_⟩
  have h := c4_create_single_timestamp (fun _ => 7) "a" "A" "d" 3 ⟨[], [], 0⟩
    (⟨"a", "A", "d", .OPEN, .P3, utcDT 7, utcDT 7⟩ : Task)
    (⟨[("a", ⟨"a", "A", "d", .OPEN, .P3, utcDT 7, utcDT 7⟩)],
      [⟨.CREATE, "a", isoUTC 7⟩], 1⟩ : SvcState) (by decide)
  exact h

/-- C8: CreateTask fails with InvalidValue exactly on an empty/whitespace
title (after trimming) or an integer priority outside 1..5, and succeeds
otherwise — in particular with an empty description.  An error raises before
the store or the history is touched (the operation returns no new state). -/
theorem c8_create_validation (clock : Nat → Int) (id : String) (title : String)
    (description : String) (p : Int) (s : SvcState) :
    ((stripEmpty title = true ∨ p < 1 ∨ 5 < p) →
      create_task clock id title description p s = .error .invalidValue) ∧
    (stripEmpty title = false → 1 ≤ p → p ≤ 5 →
      ∃ task s', create_task clock id title "" p s = .ok (task, s')) := by
  constructor
  · intro h
    unfold create_task
    rcases h with h | h | h
    · simp [h]
    · have : TaskPriority.fromInt p = none := by
        cases hx : TaskPriority.fromInt p with
        | none => rfl
        | some v =>
          have := (fromInt_isSome_iff p).mp (by simp [hx])
          omega
      split
      · rfl
      · simp [this]
    · have : TaskPriority.fromInt p = none := by
        cases hx : TaskPriority.fromInt p with
        | none => rfl
        | some v =>
          have := (fromInt_isSome_iff p).mp (by simp [hx])
          omega
      split
      · rfl
      · simp [this]
  · intro ht h1 h5
    have hsome : (TaskPriority.fromInt p).isSome = true :=
      (fromInt_isSome_iff p).mpr ⟨h1, h5⟩
    obtain ⟨v, hv⟩ := Option.isSome_iff_exists.mp hsome
    refine ⟨⟨id, title, "", .OPEN, v, utcDT (clock s.clockPos), utcDT (clock s.clockPos)⟩,
      { store := insertStore s.store id
          ⟨id, title, "", .OPEN, v, utcDT (clock s.clockPos), utcDT (clock s.clockPos)⟩
        history := s.history ++ [⟨.CREATE, id, isoUTC (clock s.clockPos)⟩]
        clockPos := s.clockPos + 1 }, ?_⟩
    unfold create_task
    simp [ht, hv]

theorem c8_witness :
    (create_task (fun _ => 0) "a" "   " "d" 3 ⟨[], [], 0⟩ = .error .invalidValue) ∧
    (create_task (fun _ => 0) "a" "A" "d" 0 ⟨[], [], 0⟩ = .error .invalidValue) ∧
    (create_task (fun _ => 0) "a" "A" "d" 6 ⟨[], [], 0⟩ = .error .invalidValue) ∧
    (∃ task s', create_task (fun _ => 0) "a" "A" "" 3 ⟨[], [], 0⟩ = .ok (task, s')) := by
  refine ⟨?_, ?_, ?_, ?_⟩
  · exact (c8_create_validation (fun _ => 0) "a" "   " "d" 3 ⟨[], [], 0⟩).1
      (Or.inl (by decide))
  · exact (c8_create_validation (fun _ => 0) "a" "A" "d" 0 ⟨[], [], 0⟩).1
      (Or.inr (Or.inl (by decide)))
  · exact (c8_create_validation (fun _ => 0) "a" "A" "d" 6 ⟨[], [], 0⟩).1
      (Or.inr (Or.inr (by decide)))
  · exact (c8_create_validation (fun _ => 0) "a" "A" "" 3 ⟨[], [], 0⟩).2
      (by decide) (by decide) (by decide)

/-- C9: FilterTasks with neither filter supplied returns exactly the same
sequence of tasks, in the same order, as ListTasks. -/
theorem c9_filter_defaults_to_list (s : SvcState) :
    filter_tasks none none s = .ok (list_tasks s) := rfl

/-- C7: DeleteTask on an existing id appends one DELETE event (logging comes
before the removal in the operation) and removes the entry, after which
GetTask fails with NotFound; DeleteTask on an unknown id fails with NotFound
and leaves the state — history included — exactly as it was. -/
theorem c7_delete_semantics (clock : Nat → Int) (id : String) (s : SvcState) :
    (∀ t0, lookupStore s.store id = some t0 →
      delete_task clock id s =
        (.ok (), { store := eraseStore s.store id
                   history := s.history ++ [⟨.DELETE, id, isoUTC (clock s.clockPos)⟩]
                   clockPos := s.clockPos + 1 }) ∧
      get_task id (delete_task clock id s).2 = .error .notFound) ∧
    (lookupStore s.store id = none →
      delete_task clock id s = (.error .notFound, s)) := by
  constructor
  · intro t0 h
    have hd : delete_task clock id s =
        (.ok (), { store := eraseStore s.store id
                   history := s.history ++ [⟨.DELETE, id, isoUTC (clock s.clockPos)⟩]
                   clockPos := s.clockPos + 1 }) := by
      unfold delete_task
      simp [h, logEvent]
    refine ⟨hd, ?_⟩
    rw [hd]
    unfold get_task
    simp [lookup_erase]
  · intro h
    unfold delete_task
    simp [h]

theorem c7_witness :
    (delete_task (fun _ => 9) "a"
        ⟨[("a", ⟨"a", "A", "d", .OPEN, .P3, utcDT 0, utcDT 0⟩)], [], 1⟩ =
      (.ok (), ⟨[], [⟨.DELETE, "a", isoUTC 9⟩], 2⟩)) ∧
    (get_task "a" (delete_task (fun _ => 9) "a"
        ⟨[("a", ⟨"a", "A", "d", .OPEN, .P3, utcDT 0, utcDT 0⟩)], [], 1⟩).2 =
      .error .notFound) ∧
    (delete_task (fun _ => 9) "b"
        ⟨[("a", ⟨"a", "A", "d", .OPEN, .P3, utcDT 0, utcDT 0⟩)], [], 1⟩ =
      (.error .notFound,
        ⟨[("a", ⟨"a", "A", "d", .OPEN, .P3, utcDT 0, utcDT 0⟩)], [], 1⟩)) := by
  have h := c7_delete_semantics (fun _ => 9) "a"
    ⟨[("a", ⟨"a", "A", "d", .OPEN, .P3, utcDT 0, utcDT 0⟩)], [], 1⟩
  have h2 := c7_delete_semantics (fun _ => 9) "b"
    ⟨[("a", ⟨"a", "A", "d", .OPEN, .P3, utcDT 0, utcDT 0⟩)], [], 1⟩
  obtain ⟨hd, hg⟩ := h.1 ⟨"a", "A", "d", .OPEN, .P3, utcDT 0, utcDT 0⟩ (by decide)
  exact ⟨by rw [hd]; decide, hg, h2.2 (by decide)⟩

/-- C10: FilterTasks validates its arguments: an unrecognized status token
fails with InvalidValue whatever min_priority is, and an integer min_priority
outside 1..5 fails with InvalidValue whether the status filter is absent or
any valid token (the operation only reads the state, so the store and history
are untouched by its type). -/
theorem c10_filter_validates (s : SvcState) (st : String) (mp : Int) :
    (TaskStatus.fromString st = none →
      ∀ mpArg, filter_tasks (some st) mpArg s = .error .invalidValue) ∧
    ((mp < 1 ∨ 5 < mp) →
      filter_tasks none (some mp) s = .error .invalidValue ∧
      ∀ stv : TaskStatus,
        filter_tasks (some stv.token) (some mp) s = .error .invalidValue) := by
  have hmp : (mp < 1 ∨ 5 < mp) → TaskPriority.fromInt mp = none := by
    intro h
    cases hx : TaskPriority.fromInt mp with
    | none => rfl
    | some v =>
      have := (fromInt_isSome_iff mp).mp (by simp [hx])
      omega
  constructor
  · intro h mpArg
    unfold filter_tasks statusFilterStep
    simp [h]
  · intro h
    constructor
    · unfold filter_tasks statusFilterStep prioFilterStep
      simp [hmp h]
    · intro stv
      unfold filter_tasks statusFilterStep prioFilterStep
      simp [fromString_token, hmp h]

theorem c10_witness :
    (filter_tasks (some "BOGUS") none ⟨[], [], 0⟩ = .error .invalidValue) ∧
    (filter_tasks none (some 0) ⟨[], [], 0⟩ = .error .invalidValue) ∧
    (filter_tasks (some "OPEN") (some 6) ⟨[], [], 0⟩ = .error .invalidValue) := by
  refine ⟨?_, ?_, ?_⟩
  · exact (c10_filter_validates ⟨[], [], 0⟩ "BOGUS" 0).1 (by decide) none
  · exact (c10_filter_validates ⟨[], [], 0⟩ "X" 0).2 (Or.inl (by decide)) |>.1
  · exact (c10_filter_validates ⟨[], [], 0⟩ "X" 6).2 (Or.inr (by decide)) |>.2 .OPEN

/-! ## Serialization round trip -/

/-- C3: for every Task with timezone-aware timestamps,
`Deserialize(Serialize(t))` succeeds and yields a task equal to `t` under
Python `==` (datetimes compared by absolute instant, so a non-UTC offset is
harmless), and serializing the deserialized task reproduces the same
dictionary (serialize→deserialize→serialize is idempotent). -/
theorem c3_round_trip (t : Task) (hc : (t.created_at.off).isSome = true)
    (hu : (t.updated_at.off).isSome = true) :
    ∃ d t', Task.to_dict t = .ok d ∧ Task.from_dict d = .ok t' ∧
      pyTaskEq t' t = true ∧ Task.to_dict t' = .ok d := by
  obtain ⟨o1, h1⟩ := Option.isSome_iff_exists.mp hc
  obtain ⟨o2, h2⟩ := Option.isSome_iff_exists.mp hu
  refine ⟨⟨t.id, t.title, t.description, t.status.token, t.priority.val,
      ⟨t.created_at.wall - o1, some 0⟩, ⟨t.updated_at.wall - o2, some 0⟩⟩,
    ⟨t.id, t.title, t.description, t.status, t.priority,
      ⟨t.created_at.wall - o1 - 0, some 0⟩, ⟨t.updated_at.wall - o2 - 0, some 0⟩⟩,
    ?_, ?_, ?_, ?_⟩
  · unfold Task.to_dict to_iso
    simp [h1, h2]
  · unfold Task.from_dict from_iso
    simp [fromString_token, fromInt_val]
  · unfold pyTaskEq pyDtEq
    simp [h1, h2]
  · unfold Task.to_dict to_iso
    simp [IsoStamp.mk.injEq]

theorem c3_witness :
    ((⟨"a", "A", "d", .OPEN, .P2, ⟨100, some 60⟩, ⟨200, some 0⟩⟩ : Task).created_at.off).isSome = true ∧
    ((⟨"a", "A", "d", .OPEN, .P2, ⟨100, some 60⟩, ⟨200, some 0⟩⟩ : Task).updated_at.off).isSome = true ∧
    ∃ d t', Task.to_dict ⟨"a", "A", "d", .OPEN, .P2, ⟨100, some 60⟩, ⟨200, some 0⟩⟩ = .ok d ∧
      Task.from_dict d = .ok t' ∧
      pyTaskEq t' ⟨"a", "A", "d", .OPEN, .P2, ⟨100, some 60⟩, ⟨200, some 0⟩⟩ = true ∧
      Task.to_dict t' = .ok d :=
  ⟨by decide, by decide,
   c3_round_trip ⟨"a", "A", "d", .OPEN, .P2, ⟨100, some 60⟩, ⟨200, some 0⟩⟩
     (by decide) (by decide)⟩

/-! ## Filtering -/

/-- C5: for every store and every FilterTasks call with valid arguments
(any combination of a recognized status token and an in-range minimum
priority), the call succeeds and returns exactly the stored tasks satisfying
the conjunction of the supplied predicates, ordered by ascending
`created_at`. -/
theorem c5_filter_semantics (fs : Option TaskStatus) (fp : Option TaskPriority)
    (s : SvcState) :
    ∃ l, filter_tasks (fs.map TaskStatus.token) (fp.map TaskPriority.val) s = .ok l ∧
      l.Perm ((s.store.map Prod.snd).filter (matchesFilters fs fp)) ∧
      List.Pairwise createdLe l := by
  have hsorted : ∀ l : List Task, List.Pairwise createdLe (sortByCreated l) :=
    fun l => List.sorted_insertionSort createdLe l
  have hperm : ∀ l : List Task, (sortByCreated l).Perm l :=
    fun l => List.perm_insertionSort createdLe l
  cases fs with
  | none =>
    cases fp with
    | none =>
      refine ⟨sortByCreated (s.store.map Prod.snd), rfl, ?_, hsorted _⟩
      refine (hperm _).trans ?_
      have hall : List.filter (matchesFilters none none) (List.map Prod.snd s.store) =
          List.map Prod.snd s.store := by
        simp [matchesFilters]
      exact List.Perm.of_eq hall.symm
    | some p =>
      refine ⟨sortByCreated ((s.store.map Prod.snd).filter
          (fun t => decide (p.val ≤ t.priority.val))), ?_, ?_, hsorted _⟩
      · unfold filter_tasks statusFilterStep prioFilterStep
        simp [fromInt_val]
      · refine (hperm _).trans ?_
        exact List.Perm.of_eq
          (List.filter_congr (fun a _ => by simp [matchesFilters]))
  | some st =>
    cases fp with
    | none =>
      refine ⟨sortByCreated ((s.store.map Prod.snd).filter
          (fun t => decide (t.status = st))), ?_, ?_, hsorted _⟩
      · unfold filter_tasks statusFilterStep prioFilterStep
        simp [fromString_token]
      · refine (hperm _).trans ?_
        exact List.Perm.of_eq
          (List.filter_congr (fun a _ => by simp [matchesFilters]))
    | some p =>
      refine ⟨sortByCreated (((s.store.map Prod.snd).filter
          (fun t => decide (t.status = st))).filter
          (fun t => decide (p.val ≤ t.priority.val))), ?_, ?_, hsorted _⟩
      · unfold filter_tasks statusFilterStep prioFilterStep
        simp [fromString_token, fromInt_val]
      · refine (hperm _).trans ?_
        rw [List.filter_filter]
        exact List.Perm.of_eq
          (List.filter_congr (fun a _ => by simp [matchesFilters, Bool.and_comm]))

/-! ## Update: change predicates and step lemmas -/

theorem stepTitle_ok {arg : Option String} {task : Task} {h : Bool}
    {t' : Task} {h' : Bool} (H : stepTitle arg task h = .ok (t', h')) :
    t'.id = task.id ∧ t'.description = task.description ∧
    t'.status = task.status ∧ t'.priority = task.priority ∧
    t'.created_at = task.created_at ∧ t'.updated_at = task.updated_at ∧
    h' = (h || titleDiff arg task.title) ∧
    (titleDiff arg task.title = false → t' = task) := by
  cases arg with
  | none =>
    simp only [stepTitle, Except.ok.injEq, Prod.mk.injEq] at H
    obtain ⟨h1, h2⟩ := H
    subst h1; subst h2
    simp [titleDiff]
  | some x =>
    simp only [stepTitle] at H
    split at H
    · exact absurd H (by simp)
    · split at H
      · rename_i hne
        simp only [Except.ok.injEq, Prod.mk.injEq] at H
        obtain ⟨h1, h2⟩ := H
        subst h1; subst h2
        simp [titleDiff, hne]
      · rename_i heq
        simp only [Except.ok.injEq, Prod.mk.injEq] at H
        obtain ⟨h1, h2⟩ := H
        subst h1; subst h2
        simp only [ne_eq, Decidable.not_not] at heq
        simp [titleDiff, heq]

theorem stepDesc_ok {arg : Option String} {task : Task} {h : Bool}
    {t' : Task} {h' : Bool} (H : stepDesc arg task h = .ok (t', h')) :
    t'.id = task.id ∧ t'.title = task.title ∧
    t'.status = task.status ∧ t'.priority = task.priority ∧
    t'.created_at = task.created_at ∧ t'.updated_at = task.updated_at ∧
    h' = (h || descDiff arg task.description) ∧
    (descDiff arg task.description = false → t' = task) := by
  cases arg with
  | none =>
    simp only [stepDesc, Except.ok.injEq, Prod.mk.injEq] at H
    obtain ⟨h1, h2⟩ := H
    subst h1; subst h2
    simp [descDiff]
  | some x =>
    simp only [stepDesc] at H
    split at H
    · rename_i hne
      simp only [Except.ok.injEq, Prod.mk.injEq] at H
      obtain ⟨h1, h2⟩ := H
      subst h1; subst h2
      simp [descDiff, hne]
    · rename_i heq
      simp only [Except.ok.injEq, Prod.mk.injEq] at H
      obtain ⟨h1, h2⟩ := H
      subst h1; subst h2
      simp only [ne_eq, Decidable.not_not] at heq
      simp [descDiff, heq]

theorem stepStatus_ok {arg : Option String} {task : Task} {h : Bool}
    {t' : Task} {h' : Bool} (H : stepStatus arg task h = .ok (t', h')) :
    t'.id = task.id ∧ t'.title = task.title ∧
    t'.description = task.description ∧ t'.priority = task.priority ∧
    t'.created_at = task.created_at ∧ t'.updated_at = task.updated_at ∧
    h' = (h || statusDiff arg task.status) ∧
    (statusDiff arg task.status = false → t' = task) := by
  cases arg with
  | none =>
    simp only [stepStatus, Except.ok.injEq, Prod.mk.injEq] at H
    obtain ⟨h1, h2⟩ := H
    subst h1; subst h2
    simp [statusDiff]
  | some x =>
    cases hf : TaskStatus.fromString x with
    | none => simp [stepStatus, hf] at H
    | some v =>
      simp only [stepStatus, hf] at H
      split at H
      · rename_i hne
        simp only [Except.ok.injEq, Prod.mk.injEq] at H
        obtain ⟨h1, h2⟩ := H
        subst h1; subst h2
        simp [statusDiff, hf, hne]
      · rename_i heq
        simp only [Except.ok.injEq, Prod.mk.injEq] at H
        obtain ⟨h1, h2⟩ := H
        subst h1; subst h2
        simp only [ne_eq, Decidable.not_not] at heq
        simp [statusDiff, hf, heq]

theorem stepPriority_ok {arg : Option Int} {task : Task} {h : Bool}
    {t' : Task} {h' : Bool} (H : stepPriority arg task h = .ok (t', h')) :
    t'.id = task.id ∧ t'.title = task.title ∧
    t'.description = task.description ∧ t'.status = task.status ∧
    t'.created_at = task.created_at ∧ t'.updated_at = task.updated_at ∧
    h' = (h || prioDiff arg task.priority) ∧
    (prioDiff arg task.priority = false → t' = task) := by
  cases arg with
  | none =>
    simp only [stepPriority, Except.ok.injEq, Prod.mk.injEq] at H
    obtain ⟨h1, h2⟩ := H
    subst h1; subst h2
    simp [prioDiff]
  | some x =>
    cases hf : TaskPriority.fromInt x with
    | none => simp [stepPriority, hf] at H
    | some v =>
      simp only [stepPriority, hf] at H
      split at H
      · rename_i hne
        simp only [Except.ok.injEq, Prod.mk.injEq] at H
        obtain ⟨h1, h2⟩ := H
        subst h1; subst h2
        simp [prioDiff, hf, hne]
      · rename_i heq
        simp only [Except.ok.injEq, Prod.mk.injEq] at H
        obtain ⟨h1, h2⟩ := H
        subst h1; subst h2
        simp only [ne_eq, Decidable.not_not] at heq
        simp [prioDiff, hf, heq]

theorem update_task_ok_spec (clock : Nat → Int) (id : String)
    (tA dA sA : Option String) (pA : Option Int) (s : SvcState)
    (task' : Task) (s' : SvcState)
    (H : update_task clock id tA dA sA pA s = (.ok task', s')) :
    ∃ task0, lookupStore s.store id = some task0 ∧
      task'.id = task0.id ∧ task'.created_at = task0.created_at ∧
      s'.store = insertStore s.store id task' ∧
      ((specChanged tA dA sA pA task0 = false ∧ task' = task0 ∧
        s'.history = s.history ∧ s'.clockPos = s.clockPos) ∨
       (specChanged tA dA sA pA task0 = true ∧
        task'.updated_at = utcDT (clock s.clockPos) ∧
        s'.history = s.history ++ [⟨.UPDATE, id, isoUTC (clock s.clockPos)⟩] ∧
        s'.clockPos = s.clockPos + 1)) := by
  unfold update_task at H
  cases hl : lookupStore s.store id with
  | none => simp only [hl] at H; exact absurd H (by simp)
  | some task0 =>
    simp only [hl] at H
    refine ⟨task0, rfl, ?_⟩
    cases h1 : stepTitle tA task0 false with
    | error e => simp only [h1] at H; exact absurd H (by simp)
    | ok r1 =>
      obtain ⟨t1, b1⟩ := r1
      simp only [h1] at H
      cases h2 : stepDesc dA t1 b1 with
      | error e => simp only [h2] at H; exact absurd H (by simp)
      | ok r2 =>
        obtain ⟨t2, b2⟩ := r2
        simp only [h2] at H
        cases h3 : stepStatus sA t2 b2 with
        | error e => simp only [h3] at H; exact absurd H (by simp)
        | ok r3 =>
          obtain ⟨t3, b3⟩ := r3
          simp only [h3] at H
          cases h4 : stepPriority pA t3 b3 with
          | error e => simp only [h4] at H; exact absurd H (by simp)
          | ok r4 =>
            obtain ⟨t4, b4⟩ := r4
            simp only [h4] at H
            obtain ⟨e1id, e1d, e1s, e1p, e1c, e1u, e1b, e1same⟩ := stepTitle_ok h1
            obtain ⟨e2id, e2t, e2s, e2p, e2c, e2u, e2b, e2same⟩ := stepDesc_ok h2
            obtain ⟨e3id, e3t, e3d, e3p, e3c, e3u, e3b, e3same⟩ := stepStatus_ok h3
            obtain ⟨e4id, e4t, e4d, e4s, e4c, e4u, e4b, e4same⟩ := stepPriority_ok h4
            have hb4 : b4 = specChanged tA dA sA pA task0 := by
              rw [e4b, e3b, e2b, e1b,
                show t1.description = task0.description from e1d,
                show t2.status = task0.status from e2s.trans e1s,
                show t3.priority = task0.priority from e3p.trans (e2p.trans e1p)]
              simp [specChanged, Bool.or_assoc]
            split at H
            · rename_i hb
              simp only [Except.ok.injEq, Prod.mk.injEq] at H
              obtain ⟨ht5, hs5⟩ := H
              subst ht5
              subst hs5
              refine ⟨?_, ?_, ?_, Or.inr ⟨?_, ?_, ?_, ?_⟩⟩
              · simp [e4id, e3id, e2id, e1id]
              · simp [e4c, e3c, e2c, e1c]
              · rfl
              · rw [← hb4]; exact hb
              · rfl
              · rfl
              · rfl
            · rename_i hb
              simp only [Except.ok.injEq, Prod.mk.injEq] at H
              obtain ⟨ht4, hs4⟩ := H
              subst ht4
              subst hs4
              have hb4f : specChanged tA dA sA pA task0 = false := by
                rw [← hb4]; exact Bool.not_eq_true b4 ▸ (by simpa using hb)
              have hall : titleDiff tA task0.title = false ∧
                  descDiff dA t1.description = false ∧
                  statusDiff sA t2.status = false ∧
                  prioDiff pA t3.priority = false := by
                have : b4 = false := by rw [hb4]; exact hb4f
                rw [e4b, e3b, e2b, e1b] at this
                simp only [Bool.or_eq_false_iff] at this
                exact ⟨this.1.1.1.2, this.1.1.2, this.1.2, this.2⟩
              have ht1 : t1 = task0 := e1same hall.1
              have ht2 : t2 = t1 := e2same hall.2.1
              have ht3 : t3 = t2 := e3same hall.2.2.1
              have ht4e : t4 = t3 := e4same hall.2.2.2
              have htt : t4 = task0 := by rw [ht4e, ht3, ht2, ht1]
              refine ⟨?_, ?_, ?_, Or.inl ⟨hb4f, htt, ?_, ?_⟩⟩
              · simp [htt]
              · simp [htt]
              · simp [writeBack]
              · simp [writeBack]
              · simp [writeBack]

theorem update_task_error_spec (clock : Nat → Int) (id : String)
    (tA dA sA : Option String) (pA : Option Int) (s : SvcState)
    (e : SvcErr) (s' : SvcState)
    (H : update_task clock id tA dA sA pA s = (.error e, s')) :
    s'.history = s.history ∧ s'.clockPos = s.clockPos ∧
    ((lookupStore s.store id = none ∧ s' = s) ∨
     (∃ task0 t'', lookupStore s.store id = some task0 ∧
        s'.store = insertStore s.store id t'' ∧
        t''.id = task0.id ∧ t''.created_at = task0.created_at ∧
        t''.updated_at = task0.updated_at ∧ t''.priority = task0.priority)) := by
  unfold update_task at H
  cases hl : lookupStore s.store id with
  | none =>
    simp only [hl] at H
    simp only [Prod.mk.injEq] at H
    obtain ⟨_, hs⟩ := H
    subst hs
    exact ⟨rfl, rfl, Or.inl ⟨rfl, rfl⟩⟩
  | some task0 =>
    simp only [hl] at H
    cases h1 : stepTitle tA task0 false with
    | error e1 =>
      simp only [h1] at H
      simp only [Prod.mk.injEq] at H
      obtain ⟨_, hs⟩ := H
      subst hs
      exact ⟨rfl, rfl, Or.inr ⟨task0, task0, rfl, rfl, rfl, rfl, rfl, rfl⟩⟩
    | ok r1 =>
      obtain ⟨t1, b1⟩ := r1
      simp only [h1] at H
      obtain ⟨e1id, e1d, e1s, e1p, e1c, e1u, _, _⟩ := stepTitle_ok h1
      cases h2 : stepDesc dA t1 b1 with
      | error e2 =>
        simp only [h2] at H
        simp only [Prod.mk.injEq] at H
        obtain ⟨_, hs⟩ := H
        subst hs
        exact ⟨rfl, rfl, Or.inr ⟨task0, t1, rfl, rfl, e1id, e1c, e1u, e1p⟩⟩
      | ok r2 =>
        obtain ⟨t2, b2⟩ := r2
        simp only [h2] at H
        obtain ⟨e2id, e2t, e2s, e2p, e2c, e2u, _, _⟩ := stepDesc_ok h2
        cases h3 : stepStatus sA t2 b2 with
        | error e3 =>
          simp only [h3] at H
          simp only [Prod.mk.injEq] at H
          obtain ⟨_, hs⟩ := H
          subst hs
          exact ⟨rfl, rfl, Or.inr ⟨task0, t2, rfl, rfl,
            e2id.trans e1id, e2c.trans e1c, e2u.trans e1u, e2p.trans e1p⟩⟩
        | ok r3 =>
          obtain ⟨t3, b3⟩ := r3
          simp only [h3] at H
          obtain ⟨e3id, e3t, e3d, e3p, e3c, e3u, _, _⟩ := stepStatus_ok h3
          cases h4 : stepPriority pA t3 b3 with
          | error e4 =>
            simp only [h4] at H
            simp only [Prod.mk.injEq] at H
            obtain ⟨_, hs⟩ := H
            subst hs
            exact ⟨rfl, rfl, Or.inr ⟨task0, t3, rfl, rfl,
              e3id.trans (e2id.trans e1id), e3c.trans (e2c.trans e1c),
              e3u.trans (e2u.trans e1u), e3p.trans (e2p.trans e1p)⟩⟩
          | ok r4 =>
            obtain ⟨t4, b4⟩ := r4
            simp only [h4] at H
            split at H <;> exact absurd H (by simp)

/-- C2: for every existing task and every successful UpdateTask call, exactly
one UPDATE history event is appended when at least one field's normalized new
value differs from the current value — stamped with the same single captured
time written into `updated_at`, regardless of how many fields changed — and
when nothing changed the history, `updated_at` and the clock are left
untouched and the task is returned unmodified. -/
theorem c2_update_history (clock : Nat → Int) (id : String)
    (tA dA sA : Option String) (pA : Option Int) (s : SvcState)
    (task' : Task) (s' : SvcState) (task0 : Task)
    (Hl : lookupStore s.store id = some task0)
    (H : update_task clock id tA dA sA pA s = (.ok task', s')) :
    (specChanged tA dA sA pA task0 = true →
      s'.history = s.history ++ [⟨.UPDATE, id, isoUTC (clock s.clockPos)⟩] ∧
      task'.updated_at = utcDT (clock s.clockPos) ∧
      s'.clockPos = s.clockPos + 1) ∧
    (specChanged tA dA sA pA task0 = false →
      s'.history = s.history ∧ task' = task0 ∧ s'.clockPos = s.clockPos) := by
  obtain ⟨tk0, hlk, _, _, _, hcases⟩ :=
    update_task_ok_spec clock id tA dA sA pA s task' s' H
  have htk : task0 = tk0 := by
    have := Hl.symm.trans hlk
    exact Option.some.injEq _ _ ▸ this
  subst htk
  rcases hcases with ⟨hf, h1, h2, h3⟩ | ⟨ht, h1, h2, h3⟩
  · exact ⟨fun hc => absurd hc (by simp [hf]), fun _ => ⟨h2, h1, h3⟩⟩
  · exact ⟨fun _ => ⟨h2, h1, h3⟩, fun hc => absurd ht (by simp [hc])⟩

theorem c2_witness :
    (specChanged (some "B") none none none
        ⟨"a", "A", "d", .OPEN, .P3, utcDT 0, utcDT 0⟩ = true →
      ([⟨.UPDATE, "a", isoUTC 5⟩] : List HistEvent) = [] ++ [⟨.UPDATE, "a", isoUTC 5⟩] ∧
      (⟨"a", "B", "d", .OPEN, .P3, utcDT 0, utcDT 5⟩ : Task).updated_at = utcDT 5 ∧
      (2 : Nat) = 1 + 1) ∧
    (specChanged (some "B") none none none
        ⟨"a", "A", "d", .OPEN, .P3, utcDT 0, utcDT 0⟩ = false →
      ([⟨.UPDATE, "a", isoUTC 5⟩] : List HistEvent) = [] ∧
      (⟨"a", "B", "d", .OPEN, .P3, utcDT 0, utcDT 5⟩ : Task) =
        ⟨"a", "A", "d", .OPEN, .P3, utcDT 0, utcDT 0⟩ ∧
      (2 : Nat) = 1) :=
  c2_update_history (fun _ => 5) "a" (some "B") none none none
    ⟨[("a", ⟨"a", "A", "d", .OPEN, .P3, utcDT 0, utcDT 0⟩)], [], 1⟩
    ⟨"a", "B", "d", .OPEN, .P3, utcDT 0, utcDT 5⟩
    ⟨[("a", ⟨"a", "B", "d", .OPEN, .P3, utcDT 0, utcDT 5⟩)],
      [⟨.UPDATE, "a", isoUTC 5⟩], 2⟩
    ⟨"a", "A", "d", .OPEN, .P3, utcDT 0, utcDT 0⟩ (by decide) (by decide)

/-- C1 counterexample: a valid new title supplied together with an invalid
status token IS committed to the stored task even though the call raises
InvalidValue — the stored task is not exactly as it was before the call. -/
theorem c1_counterexample :
    update_task (fun _ => 5) "a" (some "B") none (some "BOGUS") none
        ⟨[("a", ⟨"a", "A", "d", .OPEN, .P3, utcDT 0, utcDT 0⟩)], [], 1⟩ =
      (.error .invalidValue,
       ⟨[("a", ⟨"a", "B", "d", .OPEN, .P3, utcDT 0, utcDT 0⟩)], [], 1⟩) ∧
    lookupStore (update_task (fun _ => 5) "a" (some "B") none (some "BOGUS") none
        ⟨[("a", ⟨"a", "A", "d", .OPEN, .P3, utcDT 0, utcDT 0⟩)], [], 1⟩).2.store "a" ≠
      some ⟨"a", "A", "d", .OPEN, .P3, utcDT 0, utcDT 0⟩ := by
  decide

/-- C1 (amended): a failed UpdateTask appends no history event, never
consults the clock, and leaves every timestamp and the priority of the
addressed task unchanged (an unknown id leaves the whole state unchanged);
however, because fields are validated and written one at a time in the order
title, description, status, priority, a valid title/description/status
supplied before the failing argument has already been committed to the
stored task. -/
theorem c1_failed_update_amended (clock : Nat → Int) (id : String)
    (tA dA sA : Option String) (pA : Option Int) (s : SvcState)
    (e : SvcErr) (s' : SvcState)
    (H : update_task clock id tA dA sA pA s = (.error e, s')) :
    s'.history = s.history ∧ s'.clockPos = s.clockPos ∧
    (lookupStore s.store id = none → s' = s) ∧
    (∀ task0, lookupStore s.store id = some task0 →
      ∃ t', lookupStore s'.store id = some t' ∧
        t'.id = task0.id ∧ t'.created_at = task0.created_at ∧
        t'.updated_at = task0.updated_at ∧ t'.priority = task0.priority) := by
  obtain ⟨hh, hp, hc⟩ := update_task_error_spec clock id tA dA sA pA s e s' H
  refine ⟨hh, hp, ?_, ?_⟩
  · intro hn
    rcases hc with ⟨_, hs⟩ | ⟨tk0, t'', hlk, _⟩
    · exact hs
    · rw [hn] at hlk
      exact absurd hlk (by simp)
  · intro task0 hsome
    rcases hc with ⟨hn, _⟩ | ⟨tk0, t'', hlk, hst, hid, hcr, hup, hpr⟩
    · rw [hn] at hsome
      exact absurd hsome (by simp)
    · have htk : task0 = tk0 := by
        have := hsome.symm.trans hlk
        exact Option.some.injEq _ _ ▸ this
      subst htk
      refine ⟨t'', ?_, hid, hcr, hup, hpr⟩
      rw [hst]
      exact lookup_insert s.store id t''

theorem c1_amended_witness :
    (∃ t', lookupStore
        (⟨[("a", ⟨"a", "B", "d", .OPEN, .P3, utcDT 0, utcDT 0⟩)], [], 1⟩ : SvcState).store
        "a" = some t' ∧
      t'.id = (⟨"a", "A", "d", .OPEN, .P3, utcDT 0, utcDT 0⟩ : Task).id ∧
      t'.created_at = (⟨"a", "A", "d", .OPEN, .P3, utcDT 0, utcDT 0⟩ : Task).created_at ∧
      t'.updated_at = (⟨"a", "A", "d", .OPEN, .P3, utcDT 0, utcDT 0⟩ : Task).updated_at ∧
      t'.priority = (⟨"a", "A", "d", .OPEN, .P3, utcDT 0, utcDT 0⟩ : Task).priority) ∧
    (⟨[("a", ⟨"a", "B", "d", .OPEN, .P3, utcDT 0, utcDT 0⟩)], [], 1⟩ : SvcState).history =
      (⟨[("a", ⟨"a", "A", "d", .OPEN, .P3, utcDT 0, utcDT 0⟩)], [], 1⟩ : SvcState).history :=
  have h := c1_failed_update_amended (fun _ => 5) "a" (some "B") none (some "BOGUS") none
    ⟨[("a", ⟨"a", "A", "d", .OPEN, .P3, utcDT 0, utcDT 0⟩)], [], 1⟩ .invalidValue
    ⟨[("a", ⟨"a", "B", "d", .OPEN, .P3, utcDT 0, utcDT 0⟩)], [], 1⟩ (by decide)
  ⟨h.2.2.2 ⟨"a", "A", "d", .OPEN, .P3, utcDT 0, utcDT 0⟩ (by decide), h.1⟩

theorem reach_storeTimeInv (clock : Nat → Int)
    (hmono : ∀ i j, i ≤ j → clock i ≤ clock j)
    (s : SvcState) (hr : Reach clock s) : storeTimeInv clock s := by
  induction hr with
  | init =>
    intro id t h
    simp [lookupStore] at h
  | create s0 id title description priority task s' hr hc ih =>
    obtain ⟨htask, hs'⟩ := create_task_ok_spec clock id title description priority s0 task s' hc
    subst hs'
    intro id' t h
    simp only [lookup_insert_cases] at h
    by_cases hid : id = id'
    · rw [if_pos hid] at h
      injection h with h
      subst h
      subst htask
      exact ⟨⟨s0.clockPos, Nat.lt_succ_self _, rfl⟩, le_refl _⟩
    · rw [if_neg hid] at h
      obtain ⟨⟨p, hp, hcr⟩, hk⟩ := ih id' t h
      exact ⟨⟨p, Nat.lt_succ_of_lt hp, hcr⟩, hk⟩
  | update s0 id tA dA sA pA hr ih =>
    rcases hre : update_task clock id tA dA sA pA s0 with ⟨r, s'⟩
    show storeTimeInv clock s'
    cases r with
    | ok task' =>
      obtain ⟨task0, hlk, hid0, hcr, hst, hcases⟩ :=
        update_task_ok_spec clock id tA dA sA pA s0 task' s' hre
      intro id' t h
      rw [hst] at h
      simp only [lookup_insert_cases] at h
      by_cases hid : id = id'
      · rw [if_pos hid] at h
        injection h with h
        subst h
        obtain ⟨⟨p, hp, hcr0⟩, hk0⟩ := ih id task0 hlk
        rcases hcases with ⟨_, htt, _, hpos⟩ | ⟨_, hupd, _, hpos⟩
        · rw [htt, hpos]
          exact ⟨⟨p, hp, hcr0⟩, hk0⟩
        · refine ⟨⟨p, ?_, by rw [hcr]; exact hcr0⟩, ?_⟩
          · rw [hpos]
            exact Nat.lt_succ_of_lt hp
          · rw [hcr, hupd, hcr0]
            simp only [dtKey, utcDT, Option.getD_some, Int.sub_zero]
            exact hmono p s0.clockPos (le_of_lt hp)
      · rw [if_neg hid] at h
        obtain ⟨⟨p, hp, hcr0⟩, hk0⟩ := ih id' t h
        rcases hcases with ⟨_, _, _, hpos⟩ | ⟨_, _, _, hpos⟩
        · rw [hpos]
          exact ⟨⟨p, hp, hcr0⟩, hk0⟩
        · rw [hpos]
          exact ⟨⟨p, Nat.lt_succ_of_lt hp, hcr0⟩, hk0⟩
    | error e =>
      obtain ⟨hh, hp, hc⟩ := update_task_error_spec clock id tA dA sA pA s0 e s' hre
      intro id' t h
      rw [hp]
      rcases hc with ⟨hn, hs⟩ | ⟨task0, t'', hlk, hst, hid2, hcr2, hup2, hpr2⟩
      · subst hs
        exact ih id' t h
      · rw [hst] at h
        simp only [lookup_insert_cases] at h
        by_cases hid : id = id'
        · rw [if_pos hid] at h
          injection h with h
          subst h
          obtain ⟨⟨p, hplt, hcr0⟩, hk0⟩ := ih id task0 hlk
          exact ⟨⟨p, hplt, by rw [hcr2]; exact hcr0⟩,
            by rw [hcr2, hup2]; exact hk0⟩
        · rw [if_neg hid] at h
          exact ih id' t h
  | delete s0 id hr ih =>
    rcases hde : delete_task clock id s0 with ⟨r, s'⟩
    show storeTimeInv clock s'
    cases hl : lookupStore s0.store id with
    | none =>
      simp only [delete_task, hl, Prod.mk.injEq] at hde
      obtain ⟨_, hs⟩ := hde
      subst hs
      exact ih
    | some tk =>
      simp only [delete_task, hl, logEvent, Prod.mk.injEq] at hde
      obtain ⟨_, hs⟩ := hde
      subst hs
      intro id' t h
      simp only at h
      obtain ⟨⟨p, hplt, hcr0⟩, hk0⟩ := ih id' t (lookup_erase_some s0.store id id' t h)
      exact ⟨⟨p, Nat.lt_succ_of_lt hplt, hcr0⟩, hk0⟩

/-- C6 counterexample: with an injected time source that goes backwards
(10 at the first consultation, 5 afterwards) a reachable state — one create
followed by one title update — holds a task whose `updated_at` is strictly
earlier than its `created_at`. -/
theorem c6_counterexample :
    Reach (fun n => if n = 0 then (10 : Int) else 5)
      ⟨[("a", ⟨"a", "B", "d", .OPEN, .P3, utcDT 10, utcDT 5⟩)],
       [⟨.CREATE, "a", isoUTC 10⟩, ⟨.UPDATE, "a", isoUTC 5⟩], 2⟩ ∧
    lookupStore [("a", ⟨"a", "B", "d", .OPEN, .P3, utcDT 10, utcDT 5⟩)] "a" =
      some ⟨"a", "B", "d", .OPEN, .P3, utcDT 10, utcDT 5⟩ ∧
    dtKey ((⟨"a", "B", "d", .OPEN, .P3, utcDT 10, utcDT 5⟩ : Task).updated_at) <
      dtKey ((⟨"a", "B", "d", .OPEN, .P3, utcDT 10, utcDT 5⟩ : Task).created_at) := by
  refine ⟨?_, by decide, by decide⟩
  have h1 : Reach (fun n => if n = 0 then (10 : Int) else 5)
      ⟨[("a", ⟨"a", "A", "d", .OPEN, .P3, utcDT 10, utcDT 10⟩)],
       [⟨.CREATE, "a", isoUTC 10⟩], 1⟩ :=
    Reach.create ⟨[], [], 0⟩ "a" "A" "d" 3
      ⟨"a", "A", "d", .OPEN, .P3, utcDT 10, utcDT 10⟩
      ⟨[("a", ⟨"a", "A", "d", .OPEN, .P3, utcDT 10, utcDT 10⟩)],
       [⟨.CREATE, "a", isoUTC 10⟩], 1⟩
      Reach.init (by decide)
  have h2 := Reach.update
    ⟨[("a", ⟨"a", "A", "d", .OPEN, .P3, utcDT 10, utcDT 10⟩)],
     [⟨.CREATE, "a", isoUTC 10⟩], 1⟩
    "a" (some "B") none none none h1
  have he : (update_task (fun n => if n = 0 then (10 : Int) else 5) "a"
      (some "B") none none none
      ⟨[("a", ⟨"a", "A", "d", .OPEN, .P3, utcDT 10, utcDT 10⟩)],
       [⟨.CREATE, "a", isoUTC 10⟩], 1⟩).2 =
      ⟨[("a", ⟨"a", "B", "d", .OPEN, .P3, utcDT 10, utcDT 5⟩)],
       [⟨.CREATE, "a", isoUTC 10⟩, ⟨.UPDATE, "a", isoUTC 5⟩], 2⟩ := by decide
  exact he ▸ h2

/-- C6 (amended): provided the injected time source is non-decreasing across
consultations, every task in every reachable state satisfies
`updated_at >= created_at`; and a task's `created_at` is never changed by an
update step (the only mutating operation on an existing task). -/
theorem c6_timestamps_amended (clock : Nat → Int)
    (hmono : ∀ i j, i ≤ j → clock i ≤ clock j)
    (s : SvcState) (hr : Reach clock s) :
    (∀ id t, lookupStore s.store id = some t →
      dtKey t.created_at ≤ dtKey t.updated_at) ∧
    (∀ id tA dA sA pA id' t0 t',
      lookupStore s.store id' = some t0 →
      lookupStore (update_task clock id tA dA sA pA s).2.store id' = some t' →
      t'.created_at = t0.created_at) := by
  refine ⟨fun id t h => (reach_storeTimeInv clock hmono s hr id t h).2, ?_⟩
  intro id tA dA sA pA id' t0 t' h0 h'
  rcases hre : update_task clock id tA dA sA pA s with ⟨r, s'⟩
  rw [hre] at h'
  cases r with
  | ok task' =>
    obtain ⟨task0, hlk, _, hcr, hst, _⟩ :=
      update_task_ok_spec clock id tA dA sA pA s task' s' hre
    rw [hst] at h'
    simp only [lookup_insert_cases] at h'
    by_cases hid : id = id'
    · rw [if_pos hid] at h'
      injection h' with h'
      subst h'
      subst hid
      have htk : t0 = task0 := by
        have := h0.symm.trans hlk
        exact Option.some.injEq _ _ ▸ this
      rw [hcr, htk]
    · rw [if_neg hid] at h'
      have h2 := h0.symm.trans h'
      injection h2 with h2
      rw [h2]
  | error e =>
    obtain ⟨_, _, hc⟩ := update_task_error_spec clock id tA dA sA pA s e s' hre
    rcases hc with ⟨hn, hs⟩ | ⟨task0, t'', hlk, hst, _, hcr2, _, _⟩
    · subst hs
      have h2 := h0.symm.trans h'
      injection h2 with h2
      rw [h2]
    · rw [hst] at h'
      simp only [lookup_insert_cases] at h'
      by_cases hid : id = id'
      · rw [if_pos hid] at h'
        injection h' with h'
        subst h'
        subst hid
        have htk : t0 = task0 := by
          have := h0.symm.trans hlk
          exact Option.some.injEq _ _ ▸ this
        rw [hcr2, htk]
      · rw [if_neg hid] at h'
        have h2 := h0.symm.trans h'
        injection h2 with h2
        rw [h2]

theorem c6_amended_witness :
    dtKey ((⟨"a", "A", "d", .OPEN, .P3, utcDT 0, utcDT 0⟩ : Task).created_at) ≤
      dtKey ((⟨"a", "A", "d", .OPEN, .P3, utcDT 0, utcDT 0⟩ : Task).updated_at) :=
  (c6_timestamps_amended (fun _ => 0) (fun _ _ _ => le_refl 0)
    ⟨[("a", ⟨"a", "A", "d", .OPEN, .P3, utcDT 0, utcDT 0⟩)],
     [⟨.CREATE, "a", isoUTC 0⟩], 1⟩
    (Reach.create ⟨[], [], 0⟩ "a" "A" "d" 3
      ⟨"a", "A", "d", .OPEN, .P3, utcDT 0, utcDT 0⟩
      ⟨[("a", ⟨"a", "A", "d", .OPEN, .P3, utcDT 0, utcDT 0⟩)],
       [⟨.CREATE, "a", isoUTC 0⟩], 1⟩
      Reach.init (by decide))).1
    "a" ⟨"a", "A", "d", .OPEN, .P3, utcDT 0, utcDT 0⟩ (by decide)

end TaskTracker
